import Mathlib

/-
Verification of the moz virtual-memory allocator (src/mmap.rs, src/core.rs).

Machine integers (usize) are modelled as Nat with explicit bounds where
overflow matters (USIZE_MAX).  Addresses are Nat.  The OS mmap/munmap
primitive is modelled as an oracle: a pair of response streams consumed in
call order.  Every OS call is recorded in an event trace so that claims
about which ranges were mapped and unmapped can be stated.  A Rust panic
(assert failure, Option::unwrap on None, NonNull::new on null) is modelled
by the distinguished outcome Out.fault.
-/

def USIZE_MAX : Nat := 2 ^ 64 - 1

def ISIZE_MAX : Nat := 2 ^ 63 - 1

/-- checked_sub on usize: none exactly when the subtraction would underflow. -/
def checkedSub (a b : Nat) : Option Nat :=
  if b ≤ a then some (a - b) else none

/-- checked_add on usize: none exactly when the sum exceeds usize::MAX. -/
def checkedAdd (a b : Nat) : Option Nat :=
  if a + b ≤ USIZE_MAX then some (a + b) else none

/-- Fuel-bounded power-of-two test; with fuel 64 it is exact on all usize
values.  Mirrors usize::is_power_of_two. -/
def isPow2Go : Nat → Nat → Bool
  | _, 1 => true
  | 0, _ => false
  | f + 1, n => n % 2 == 0 && isPow2Go f (n / 2)

def isPow2 (n : Nat) : Bool := isPow2Go 64 n

/-- Distance from addr to the next address aligned to a; mirrors
pointer::align_offset for byte pointers (a a power of two). -/
def alignOffset (addr a : Nat) : Nat := (a - addr % a) % a

/-- core::alloc::Layout: a size and a power-of-two alignment. -/
structure Layout where
  size : Nat
  align : Nat
deriving DecidableEq, Repr

/-- Layout::from_size_align: requires align to be a power of two and size,
rounded up to align, not to overflow isize. -/
def Layout.from_size_align (size align : Nat) : Option Layout :=
  if isPow2 align ∧ size ≤ ISIZE_MAX - (align - 1) then some ⟨size, align⟩ else none

/-- Layout::align_to: raise the alignment to max(self.align, a). -/
def Layout.align_to (l : Layout) (a : Nat) : Option Layout :=
  if isPow2 a then Layout.from_size_align l.size (max l.align a) else none

/-- Layout::pad_to_align: round the size up to a multiple of the alignment. -/
def Layout.pad_to_align (l : Layout) : Layout :=
  ⟨l.size + alignOffset l.size l.align, l.align⟩

/-- Layout::dangling: a non-null placeholder address that is aligned for this
layout (the address equals the alignment). -/
def Layout.dangling (l : Layout) : Nat := l.align

/-- rustix::io::Errno, kept abstract as its raw code. -/
abbrev OsErr := Nat

def enomem : OsErr := 12

instance exceptDecEq {ε α : Type} [DecidableEq ε] [DecidableEq α] :
    DecidableEq (Except ε α) := fun x y =>
  match x, y with
  | Except.ok a, Except.ok b => decidable_of_iff (a = b) (by simp)
  | Except.ok _, Except.error _ => isFalse (by intro h; cases h)
  | Except.error _, Except.ok _ => isFalse (by intro h; cases h)
  | Except.error e, Except.error f => decidable_of_iff (e = f) (by simp)

/-- One OS call as recorded in the trace, together with the OS response. -/
inductive Ev
  | map (len : Nat) (res : Except OsErr Nat)
  | unmap (addr len : Nat) (res : Except OsErr Unit)
deriving DecidableEq, Repr

/-- The OS oracle: the responses the OS will give to successive mmap calls
and to successive munmap calls.  An exhausted stream answers with ENOMEM. -/
structure OS where
  maps : List (Except OsErr Nat)
  unmaps : List (Except OsErr Unit)
deriving DecidableEq, Repr

/-- The error enum MmapErr of src/mmap.rs. -/
inductive MmapErr
  | Os (e : OsErr)
  | Overflow
  | NoAlign
  | Layout
deriving DecidableEq, Repr

/-- Outcome of a fallible operation: Ok, a typed error, or a Rust panic. -/
inductive Out (α : Type)
  | ok (a : α)
  | err (e : MmapErr)
  | fault
deriving DecidableEq, Repr

/-- Sequencing that threads the oracle and accumulates the event trace. -/
def andThen {α β : Type} (r : Out α × List Ev × OS)
    (f : α → OS → Out β × List Ev × OS) : Out β × List Ev × OS :=
  match r with
  | (Out.ok a, evs, os) => ((f a os).1, evs ++ (f a os).2.1, (f a os).2.2)
  | (Out.err e, evs, os) => (Out.err e, evs, os)
  | (Out.fault, evs, os) => (Out.fault, evs, os)

/-- The Mem struct of src/mmap.rs: a pointer paired with its layout. -/
structure Mem where
  ptr : Nat
  layout : Layout
deriving DecidableEq, Repr

/-- The free function map of src/mmap.rs: one mmap_anonymous call.  The
kernel chooses the address; NonNull::new(..).unwrap() panics on null. -/
def Mmap.map (len : Nat) (os : OS) : Out Nat × List Ev × OS :=
  match os.maps with
  | [] => (Out.err (MmapErr.Os enomem), [Ev.map len (Except.error enomem)], ⟨[], os.unmaps⟩)
  | Except.error e :: rs =>
      (Out.err (MmapErr.Os e), [Ev.map len (Except.error e)], ⟨rs, os.unmaps⟩)
  | Except.ok a :: rs =>
      if a = 0 then (Out.fault, [Ev.map len (Except.ok 0)], ⟨rs, os.unmaps⟩)
      else (Out.ok a, [Ev.map len (Except.ok a)], ⟨rs, os.unmaps⟩)

/-- Mmap::unmap of src/mmap.rs: asserts that the pointer is page-aligned and
the length a multiple of the page size, then calls munmap. -/
def Mmap.unmap (P : Nat) (a l : Nat) (os : OS) : Out Unit × List Ev × OS :=
  if a % P = 0 ∧ l % P = 0 then
    match os.unmaps with
    | [] => (Out.err (MmapErr.Os enomem), [Ev.unmap a l (Except.error enomem)], ⟨os.maps, []⟩)
    | Except.ok _ :: rs => (Out.ok (), [Ev.unmap a l (Except.ok ())], ⟨os.maps, rs⟩)
    | Except.error e :: rs =>
        (Out.err (MmapErr.Os e), [Ev.unmap a l (Except.error e)], ⟨os.maps, rs⟩)
  else (Out.fault, [], os)

/-- Mmap::trim of src/mmap.rs: cut the aligned cookie of shape layout out of
the allocation of alloc_size bytes at al, unmapping the leading and trailing
slack.  The checked subtractions yield NoAlign on underflow. -/
def Mmap.trim (P : Nat) (al n : Nat) (layout : Layout) (os : OS) :
    Out Nat × List Ev × OS :=
  match (checkedSub n (alignOffset al layout.align)).bind
      (fun x => checkedSub x layout.size) with
  | none => (Out.err MmapErr.NoAlign, [], os)
  | some tend =>
      andThen
        (if 0 < alignOffset al layout.align then
          Mmap.unmap P al (alignOffset al layout.align) os
        else (Out.ok (), [], os))
        (fun _ os1 =>
          andThen
            (if 0 < tend then
              Mmap.unmap P (al + alignOffset al layout.align + layout.size) tend os1
            else (Out.ok (), [], os1))
            (fun _ os2 => (Out.ok (al + alignOffset al layout.align), [], os2)))

/-- Mmap::alloc_slow of src/mmap.rs: pad the request by align - pagesize
(checked_sub then unwrap, checked_add surfacing Overflow), map it, trim it. -/
def Mmap.alloc_slow (P : Nat) (layout : Layout) (os : OS) :
    Out Mem × List Ev × OS :=
  match checkedSub layout.align P with
  | none => (Out.fault, [], os)
  | some pad =>
      match checkedAdd layout.size pad with
      | none => (Out.err MmapErr.Overflow, [], os)
      | some n =>
          andThen (Mmap.map n os) (fun a os1 =>
            andThen (Mmap.trim P a n layout os1) (fun ptr os2 =>
              (Out.ok ⟨ptr, layout⟩, [], os2)))

/-- Mmap::alloc of src/mmap.rs: normalize the layout, try the fast path, and
on misalignment unmap the first mapping and fall back to alloc_slow. -/
def Mmap.alloc (P : Nat) (layout : Layout) (os : OS) : Out Mem × List Ev × OS :=
  match Layout.align_to layout P with
  | none => (Out.err MmapErr.Layout, [], os)
  | some l1 =>
      andThen (Mmap.map (Layout.pad_to_align l1).size os) (fun p os1 =>
        if p % (Layout.pad_to_align l1).align = 0 then
          (Out.ok ⟨p, Layout.pad_to_align l1⟩, [], os1)
        else
          andThen (Mmap.unmap P p (Layout.pad_to_align l1).size os1) (fun _ os2 =>
            Mmap.alloc_slow P (Layout.pad_to_align l1) os2))

/-- Mmap::free of src/mmap.rs: unmap exactly the range described by the Mem. -/
def Mmap.free (P : Nat) (m : Mem) (os : OS) : Out Unit × List Ev × OS :=
  Mmap.unmap P m.ptr m.layout.size os

/-- Is the byte at address b inside the range of l bytes starting at a. -/
def covers (a l b : Nat) : Bool := decide (a ≤ b ∧ b < a + l)

/-- Effect of one trace event on the mapped-state of the byte at address b. -/
def evStep (b : Nat) (st : Bool) : Ev → Bool
  | Ev.map len (Except.ok p) => if covers p len b then true else st
  | Ev.map _ (Except.error _) => st
  | Ev.unmap a l (Except.ok _) => if covers a l b then false else st
  | Ev.unmap _ _ (Except.error _) => st

def runEvs (b : Nat) (st : Bool) (evs : List Ev) : Bool := evs.foldl (evStep b) st

/-- After the given trace of OS calls, is the byte at address b mapped. -/
def isMappedAfter (evs : List Ev) (b : Nat) : Bool := runEvs b false evs

/-- The Tag handle of src/core.rs: a pointer paired with its layout. -/
structure Tag where
  ptr : Nat
  layout : Layout
deriving DecidableEq, Repr

/-- The Alloc capability trait of src/core.rs, over an explicit state type
so that calls into the wrapped allocator are observable. -/
structure Alloc (σ : Type) where
  alloc : Layout → σ → Except Unit Tag × σ
  free : Tag → σ → σ

/-- ZeroHeap::alloc of src/core.rs: intercept zero-sized requests with a
dangling, validly aligned Tag; otherwise delegate to the wrapped allocator. -/
def ZeroHeap.alloc {σ : Type} (T : Alloc σ) (layout : Layout) (s : σ) :
    Except Unit Tag × σ :=
  if layout.size = 0 then (Except.ok ⟨Layout.dangling layout, layout⟩, s)
  else T.alloc layout s

/-- Modelled from the spec: ZeroHeap::free in src/core.rs line 59 tests
the undefined name layout (the crate does not compile as written); the spec
says free does nothing when the Tag's shape has size zero and otherwise
delegates, i.e. the test is on tag.layout().size(). -/
def ZeroHeap.free {σ : Type} (T : Alloc σ) (tag : Tag) (s : σ) : σ :=
  if tag.layout.size ≠ 0 then T.free tag s else s

/-- An instrumented stub allocator that counts calls into it, used to
observe whether the decorator delegates. -/
def countAlloc : Alloc Nat :=
  ⟨fun _ n => (Except.ok ⟨1, ⟨1, 1⟩⟩, n + 1), fun _ n => n + 1⟩

theorem isPow2Go_pow (f : Nat) : ∀ n, isPow2Go f n = true → ∃ k, k ≤ f ∧ n = 2 ^ k := by
  induction f with
  | zero =>
    intro n h
    match n, h with
    | 1, _ => exact ⟨0, Nat.le_refl 0, rfl⟩
  | succ f ih =>
    intro n h
    match n, h with
    | 1, _ => exact ⟨0, Nat.zero_le _, rfl⟩
    | 0, h =>
      obtain ⟨k, _, hk⟩ := ih 0 h
      have hpos : (0 : Nat) < 2 ^ k := pow_pos (by norm_num) k
      omega
    | (m + 2), h =>
      have h2 : ((m + 2) % 2 == 0 && isPow2Go f ((m + 2) / 2)) = true := h
      rw [Bool.and_eq_true] at h2
      obtain ⟨he, hr⟩ := h2
      have he2 : (m + 2) % 2 = 0 := by simpa using he
      obtain ⟨k, hkf, hk⟩ := ih ((m + 2) / 2) hr
      refine ⟨k + 1, by omega, ?_⟩
      have hm : m + 2 = 2 * ((m + 2) / 2) := by omega
      rw [hm, hk, pow_succ, Nat.mul_comm]

theorem isPow2_pow {n : Nat} (h : isPow2 n = true) : ∃ k, n = 2 ^ k := by
  obtain ⟨k, _, hk⟩ := isPow2Go_pow 64 n h
  exact ⟨k, hk⟩

theorem isPow2_pos {n : Nat} (h : isPow2 n = true) : 0 < n := by
  obtain ⟨k, rfl⟩ := isPow2_pow h
  exact pow_pos (by norm_num) k

theorem pow2_dvd {m n : Nat} (hm : isPow2 m = true) (hn : isPow2 n = true)
    (h : m ≤ n) : m ∣ n := by
  obtain ⟨i, rfl⟩ := isPow2_pow hm
  obtain ⟨j, rfl⟩ := isPow2_pow hn
  exact pow_dvd_pow 2 ((Nat.pow_le_pow_iff_right (by norm_num)).mp h)

theorem isPow2_max {m n : Nat} (hm : isPow2 m = true) (hn : isPow2 n = true) :
    isPow2 (max m n) = true := by
  rcases Nat.le_total m n with h | h
  · rwa [Nat.max_eq_right h]
  · rwa [Nat.max_eq_left h]

theorem alignOffset_lt (addr a : Nat) (ha : 0 < a) : alignOffset addr a < a :=
  Nat.mod_lt _ ha

theorem add_alignOffset_mod (addr a : Nat) (ha : 0 < a) :
    (addr + alignOffset addr a) % a = 0 := by
  unfold alignOffset
  rcases Nat.eq_zero_or_pos (addr % a) with h | h
  · have h0 : (a - addr % a) % a = 0 := by rw [h, Nat.sub_zero, Nat.mod_self]
    rw [h0, Nat.add_zero]
    exact h
  · have hlt : addr % a < a := Nat.mod_lt _ ha
    have h1 : (a - addr % a) % a = a - addr % a := Nat.mod_eq_of_lt (by omega)
    rw [h1]
    have hdm := Nat.div_add_mod addr a
    have h2 : addr + (a - addr % a) = a * (addr / a + 1) := by
      rw [Nat.mul_add, Nat.mul_one]
      omega
    rw [h2]
    exact Nat.mul_mod_right _ _

theorem alignOffset_le {addr P a : Nat} (hP : 0 < P) (hd : P ∣ a) (hPa : P ≤ a)
    (hal : addr % P = 0) : alignOffset addr a ≤ a - P := by
  have ha : 0 < a := lt_of_lt_of_le hP hPa
  unfold alignOffset
  rcases Nat.eq_zero_or_pos (addr % a) with h | h
  · rw [h, Nat.sub_zero, Nat.mod_self]
    omega
  · have hlt : addr % a < a := Nat.mod_lt _ ha
    have h1 : (a - addr % a) % a = a - addr % a := Nat.mod_eq_of_lt (by omega)
    rw [h1]
    have hPm : P ∣ addr % a := (Nat.dvd_mod_iff hd).mpr (Nat.dvd_of_mod_eq_zero hal)
    have : P ≤ addr % a := Nat.le_of_dvd h hPm
    omega

theorem alignOffset_mod_eq_zero {addr P a : Nat} (_hP : 0 < P) (hd : P ∣ a)
    (hal : addr % P = 0) : alignOffset addr a % P = 0 := by
  unfold alignOffset
  rcases Nat.eq_zero_or_pos a with rfl | ha
  · simp [Nat.mod_zero, Nat.zero_sub, Nat.zero_mod]
  rcases Nat.eq_zero_or_pos (addr % a) with h | h
  · rw [h, Nat.sub_zero, Nat.mod_self, Nat.zero_mod]
  · have hlt : addr % a < a := Nat.mod_lt _ ha
    have h1 : (a - addr % a) % a = a - addr % a := Nat.mod_eq_of_lt (by omega)
    rw [h1]
    have hPm : P ∣ addr % a := (Nat.dvd_mod_iff hd).mpr (Nat.dvd_of_mod_eq_zero hal)
    obtain ⟨c, hc⟩ := Nat.dvd_sub' hd hPm
    rw [hc]
    exact Nat.mul_mod_right _ _

theorem mod_eq_zero_of_dvd {P x : Nat} (h : P ∣ x) : x % P = 0 := by
  obtain ⟨c, rfl⟩ := h
  exact Nat.mul_mod_right _ _

theorem align_to_some {l l1 : Layout} {P : Nat} (h : Layout.align_to l P = some l1) :
    isPow2 P = true ∧ isPow2 l1.align = true ∧ l1.size = l.size ∧
    l1.align = max l.align P ∧ l.size ≤ ISIZE_MAX - (l1.align - 1) := by
  unfold Layout.align_to Layout.from_size_align at h
  by_cases hp : isPow2 P = true
  · rw [if_pos hp] at h
    by_cases hc : isPow2 (max l.align P) = true ∧ l.size ≤ ISIZE_MAX - (max l.align P - 1)
    · rw [if_pos hc] at h
      cases h
      exact ⟨hp, hc.1, rfl, rfl, hc.2⟩
    · rw [if_neg hc] at h
      cases h
  · rw [if_neg hp] at h
    cases h

theorem pad_size_mod {l : Layout} (ha : 0 < l.align) :
    (Layout.pad_to_align l).size % l.align = 0 :=
  add_alignOffset_mod l.size l.align ha

theorem chain_eq (n ost s : Nat) :
    (checkedSub n ost).bind (fun x => checkedSub x s) =
      if ost + s ≤ n then some (n - ost - s) else none := by
  unfold checkedSub
  by_cases h1 : ost ≤ n
  · rw [if_pos h1]
    simp only [Option.some_bind]
    by_cases h2 : s ≤ n - ost
    · rw [if_pos h2, if_pos (by omega)]
    · rw [if_neg h2, if_neg (by omega)]
  · rw [if_neg h1, if_neg (by omega)]
    rfl

theorem trim_none (P al n : Nat) (layout : Layout) (os : OS)
    (hle : ¬(alignOffset al layout.align + layout.size ≤ n)) :
    Mmap.trim P al n layout os = (Out.err MmapErr.NoAlign, [], os) := by
  unfold Mmap.trim
  rw [chain_eq, if_neg hle]

theorem trim_some (P al n : Nat) (layout : Layout) (os : OS)
    (hle : alignOffset al layout.align + layout.size ≤ n) :
    Mmap.trim P al n layout os =
      andThen
        (if 0 < alignOffset al layout.align then
          Mmap.unmap P al (alignOffset al layout.align) os
        else (Out.ok (), [], os))
        (fun _ os1 =>
          andThen
            (if 0 < n - alignOffset al layout.align - layout.size then
              Mmap.unmap P (al + alignOffset al layout.align + layout.size)
                (n - alignOffset al layout.align - layout.size) os1
            else (Out.ok (), [], os1))
            (fun _ os2 => (Out.ok (al + alignOffset al layout.align), [], os2))) := by
  unfold Mmap.trim
  rw [chain_eq, if_pos hle]

theorem map_out {len : Nat} {os : OS} {o : Out Nat} {evs : List Ev} {os' : OS}
    (h : Mmap.map len os = (o, evs, os')) :
    (∃ e, o = Out.err (MmapErr.Os e) ∧ evs = [Ev.map len (Except.error e)]) ∨
    (o = Out.fault ∧ evs = [Ev.map len (Except.ok 0)]) ∨
    (∃ a, a ≠ 0 ∧ o = Out.ok a ∧ evs = [Ev.map len (Except.ok a)]) := by
  unfold Mmap.map at h
  split at h
  · simp only [Prod.mk.injEq] at h
    obtain ⟨rfl, rfl, rfl⟩ := h
    exact Or.inl ⟨enomem, rfl, rfl⟩
  · rename_i e rs hms
    simp only [Prod.mk.injEq] at h
    obtain ⟨rfl, rfl, rfl⟩ := h
    exact Or.inl ⟨e, rfl, rfl⟩
  · rename_i a rs hms
    split at h
    · rename_i ha
      subst ha
      simp only [Prod.mk.injEq] at h
      obtain ⟨rfl, rfl, rfl⟩ := h
      exact Or.inr (Or.inl ⟨rfl, rfl⟩)
    · rename_i ha
      simp only [Prod.mk.injEq] at h
      obtain ⟨rfl, rfl, rfl⟩ := h
      exact Or.inr (Or.inr ⟨a, ha, rfl, rfl⟩)

theorem unmap_out {P a l : Nat} {os : OS} {o : Out Unit} {evs : List Ev} {os' : OS}
    (h : Mmap.unmap P a l os = (o, evs, os')) :
    (o = Out.ok () ∧ evs = [Ev.unmap a l (Except.ok ())] ∧ a % P = 0 ∧ l % P = 0) ∨
    (∃ e, o = Out.err (MmapErr.Os e) ∧ evs = [Ev.unmap a l (Except.error e)]) ∨
    (o = Out.fault ∧ evs = [] ∧ os' = os ∧ ¬(a % P = 0 ∧ l % P = 0)) := by
  unfold Mmap.unmap at h
  split at h
  · rename_i hc
    split at h
    · simp only [Prod.mk.injEq] at h
      obtain ⟨rfl, rfl, rfl⟩ := h
      exact Or.inr (Or.inl ⟨enomem, rfl, rfl⟩)
    · simp only [Prod.mk.injEq] at h
      obtain ⟨rfl, rfl, rfl⟩ := h
      exact Or.inl ⟨rfl, rfl, hc.1, hc.2⟩
    · rename_i e rs hus
      simp only [Prod.mk.injEq] at h
      obtain ⟨rfl, rfl, rfl⟩ := h
      exact Or.inr (Or.inl ⟨e, rfl, rfl⟩)
  · rename_i hc
    simp only [Prod.mk.injEq] at h
    obtain ⟨rfl, rfl, rfl⟩ := h
    exact Or.inr (Or.inr ⟨rfl, rfl, rfl, hc⟩)

theorem trim_run (P al n : Nat) (layout : Layout) (os : OS) :
    (¬(alignOffset al layout.align + layout.size ≤ n) ∧
      Mmap.trim P al n layout os = (Out.err MmapErr.NoAlign, [], os)) ∨
    (alignOffset al layout.align + layout.size ≤ n ∧ ∃ os2,
      Mmap.trim P al n layout os = (Out.ok (al + alignOffset al layout.align),
        (if 0 < alignOffset al layout.align then
          [Ev.unmap al (alignOffset al layout.align) (Except.ok ())] else []) ++
        (if 0 < n - alignOffset al layout.align - layout.size then
          [Ev.unmap (al + alignOffset al layout.align + layout.size)
            (n - alignOffset al layout.align - layout.size) (Except.ok ())] else []),
        os2)) ∨
    (alignOffset al layout.align + layout.size ≤ n ∧ ∃ a2 l2 e os2 pre,
      (pre = [] ∨ pre = [Ev.unmap al (alignOffset al layout.align) (Except.ok ())]) ∧
      Mmap.trim P al n layout os =
        (Out.err (MmapErr.Os e), pre ++ [Ev.unmap a2 l2 (Except.error e)], os2)) ∨
    (alignOffset al layout.align + layout.size ≤ n ∧
      (¬(al % P = 0 ∧ alignOffset al layout.align % P = 0) ∨
       ¬((al + alignOffset al layout.align + layout.size) % P = 0 ∧
         (n - alignOffset al layout.align - layout.size) % P = 0)) ∧
      ∃ os2 pre,
        (pre = [] ∨ pre = [Ev.unmap al (alignOffset al layout.align) (Except.ok ())]) ∧
        Mmap.trim P al n layout os = (Out.fault, pre, os2)) := by
  by_cases hle : alignOffset al layout.align + layout.size ≤ n
  · rw [trim_some P al n layout os hle]
    by_cases host : 0 < alignOffset al layout.align
    · rw [if_pos host]
      rcases hL : Mmap.unmap P al (alignOffset al layout.align) os with ⟨oL, evsL, osL⟩
      rcases unmap_out hL with ⟨hoL, hevL, ha1, ha2⟩ | ⟨e, hoL, hevL⟩ | ⟨hoL, hevL, hosL, hna⟩
      · subst hoL; subst hevL
        simp only [andThen]
        by_cases ht : 0 < n - alignOffset al layout.align - layout.size
        · rw [if_pos ht]
          rcases hT : Mmap.unmap P (al + alignOffset al layout.align + layout.size)
              (n - alignOffset al layout.align - layout.size) osL with ⟨oT, evsT, osT⟩
          rcases unmap_out hT with ⟨hoT, hevT, hb1, hb2⟩ | ⟨e, hoT, hevT⟩ | ⟨hoT, hevT, hosT, hnb⟩
          · subst hoT; subst hevT
            refine Or.inr (Or.inl ⟨hle, osT, ?_⟩)
            simp [andThen, host, ht]
          · subst hoT; subst hevT
            refine Or.inr (Or.inr (Or.inl ⟨hle,
              al + alignOffset al layout.align + layout.size,
              n - alignOffset al layout.align - layout.size, e, osT,
              [Ev.unmap al (alignOffset al layout.align) (Except.ok ())],
              Or.inr rfl, ?_⟩))
            simp [andThen, host, ht]
          · subst hoT; subst hevT
            refine Or.inr (Or.inr (Or.inr ⟨hle, Or.inr hnb, osT,
              [Ev.unmap al (alignOffset al layout.align) (Except.ok ())],
              Or.inr rfl, ?_⟩))
            simp [andThen, host, ht]
        · rw [if_neg ht]
          refine Or.inr (Or.inl ⟨hle, osL, ?_⟩)
          simp [andThen, host, ht]
      · subst hoL; subst hevL
        refine Or.inr (Or.inr (Or.inl ⟨hle, al, alignOffset al layout.align, e, osL,
          [], Or.inl rfl, ?_⟩))
        simp [andThen, host]
      · subst hoL; subst hevL
        refine Or.inr (Or.inr (Or.inr ⟨hle, Or.inl hna, osL, [], Or.inl rfl, ?_⟩))
        simp [andThen, host]
    · rw [if_neg host]
      simp only [andThen]
      by_cases ht : 0 < n - alignOffset al layout.align - layout.size
      · rw [if_pos ht]
        rcases hT : Mmap.unmap P (al + alignOffset al layout.align + layout.size)
            (n - alignOffset al layout.align - layout.size) os with ⟨oT, evsT, osT⟩
        rcases unmap_out hT with ⟨hoT, hevT, hb1, hb2⟩ | ⟨e, hoT, hevT⟩ | ⟨hoT, hevT, hosT, hnb⟩
        · subst hoT; subst hevT
          refine Or.inr (Or.inl ⟨hle, osT, ?_⟩)
          simp [andThen, host, ht]
        · subst hoT; subst hevT
          refine Or.inr (Or.inr (Or.inl ⟨hle,
            al + alignOffset al layout.align + layout.size,
            n - alignOffset al layout.align - layout.size, e, osT, [], Or.inl rfl, ?_⟩))
          simp [andThen, host, ht]
        · subst hoT; subst hevT
          refine Or.inr (Or.inr (Or.inr ⟨hle, Or.inr hnb, osT, [], Or.inl rfl, ?_⟩))
          simp [andThen, host, ht]
      · rw [if_neg ht]
        refine Or.inr (Or.inl ⟨hle, os, ?_⟩)
        simp [andThen, host, ht]
  · exact Or.inl ⟨hle, trim_none P al n layout os hle⟩

theorem alloc_noneL {P : Nat} {layout : Layout} (os : OS)
    (hLa : Layout.align_to layout P = none) :
    Mmap.alloc P layout os = (Out.err MmapErr.Layout, [], os) := by
  unfold Mmap.alloc
  rw [hLa]

theorem alloc_some {P : Nat} {layout l1 : Layout} (os : OS)
    (hLa : Layout.align_to layout P = some l1) :
    Mmap.alloc P layout os =
      andThen (Mmap.map (Layout.pad_to_align l1).size os) (fun p os1 =>
        if p % (Layout.pad_to_align l1).align = 0 then
          (Out.ok ⟨p, Layout.pad_to_align l1⟩, [], os1)
        else
          andThen (Mmap.unmap P p (Layout.pad_to_align l1).size os1) (fun _ os2 =>
            Mmap.alloc_slow P (Layout.pad_to_align l1) os2)) := by
  unfold Mmap.alloc
  rw [hLa]

theorem alloc_slow_red (P : Nat) (layout : Layout) (os : OS) (hPA : P ≤ layout.align)
    (hn : layout.size + (layout.align - P) ≤ USIZE_MAX) :
    Mmap.alloc_slow P layout os =
      andThen (Mmap.map (layout.size + (layout.align - P)) os) (fun a os1 =>
        andThen (Mmap.trim P a (layout.size + (layout.align - P)) layout os1)
          (fun ptr os2 => (Out.ok ⟨ptr, layout⟩, [], os2))) := by
  unfold Mmap.alloc_slow
  rw [show checkedSub layout.align P = some (layout.align - P) from by
    unfold checkedSub; rw [if_pos hPA]]
  dsimp only
  rw [show checkedAdd layout.size (layout.align - P) =
      some (layout.size + (layout.align - P)) from by
    unfold checkedAdd; rw [if_pos hn]]

theorem norm_facts {layout l1 : Layout} {P : Nat}
    (hLa : Layout.align_to layout P = some l1) :
    0 < P ∧ 0 < (Layout.pad_to_align l1).align ∧
    P ≤ (Layout.pad_to_align l1).align ∧
    P ∣ (Layout.pad_to_align l1).align ∧
    (Layout.pad_to_align l1).size % (Layout.pad_to_align l1).align = 0 ∧
    (Layout.pad_to_align l1).size % P = 0 := by
  obtain ⟨hPp, hAp, hsz, hmax, hbound⟩ := align_to_some hLa
  have hPpos := isPow2_pos hPp
  have hApos := isPow2_pos hAp
  have hPle : P ≤ l1.align := by rw [hmax]; exact le_max_right _ _
  have hPdvd : P ∣ l1.align := pow2_dvd hPp hAp hPle
  have hsmod : (Layout.pad_to_align l1).size % l1.align = 0 := pad_size_mod hApos
  refine ⟨hPpos, hApos, hPle, hPdvd, hsmod, ?_⟩
  exact mod_eq_zero_of_dvd (dvd_trans hPdvd (Nat.dvd_of_mod_eq_zero hsmod))

theorem isPow2_le_max {n : Nat} (h : isPow2 n = true) : n ≤ 2 ^ 64 := by
  obtain ⟨k, hk, rfl⟩ := isPow2Go_pow 64 n h
  exact Nat.pow_le_pow_right (by norm_num) hk

theorem normalized_pad_le {layout l1 : Layout} {P : Nat}
    (hLa : Layout.align_to layout P = some l1) :
    (Layout.pad_to_align l1).size + ((Layout.pad_to_align l1).align - P) ≤ USIZE_MAX := by
  obtain ⟨hPp, hAp, hsz, hmax, hbound⟩ := align_to_some hLa
  have hPpos := isPow2_pos hPp
  have hApos := isPow2_pos hAp
  have hAle : l1.align ≤ 2 ^ 64 := isPow2_le_max hAp
  have hofs : alignOffset l1.size l1.align < l1.align := alignOffset_lt _ _ hApos
  have hpadsz : (Layout.pad_to_align l1).size = l1.size + alignOffset l1.size l1.align := rfl
  have hpadal : (Layout.pad_to_align l1).align = l1.align := rfl
  have hp64 : (2 : Nat) ^ 64 = 2 ^ 63 * 2 := pow_succ 2 63
  have hU : USIZE_MAX = 2 ^ 64 - 1 := rfl
  have hI : ISIZE_MAX = 2 ^ 63 - 1 := rfl
  have h63pos : (0 : Nat) < 2 ^ 63 := pow_pos (by norm_num) 63
  by_cases hA1 : l1.align - 1 ≤ ISIZE_MAX
  · rw [hpadsz, hpadal]
    omega
  · have hs0 : l1.size = 0 := by omega
    have hofs0 : alignOffset l1.size l1.align = 0 := by
      rw [hs0]
      unfold alignOffset
      rw [Nat.zero_mod, Nat.sub_zero, Nat.mod_self]
    rw [hpadsz, hpadal, hofs0, hs0]
    omega

theorem alloc_run {P : Nat} {layout : Layout} {os : OS} {res : Out Mem}
    {evs : List Ev} {os2 : OS}
    (h : Mmap.alloc P layout os = (res, evs, os2))
    (hm : ∀ p len, Ev.map len (Except.ok p) ∈ evs → p % P = 0 ∧ p ≠ 0) :
    res ≠ Out.fault ∧
    ∀ m, res = Out.ok m → ∃ l1, Layout.align_to layout P = some l1 ∧
      m.layout = Layout.pad_to_align l1 ∧ m.ptr % m.layout.align = 0 := by
  rcases hLa : Layout.align_to layout P with _ | l1
  · rw [alloc_noneL os hLa] at h
    simp only [Prod.mk.injEq] at h
    obtain ⟨rfl, rfl, rfl⟩ := h
    exact ⟨fun hc => Out.noConfusion hc, fun m hc => Out.noConfusion hc⟩
  · rw [alloc_some os hLa] at h
    obtain ⟨hPpos, hApos, hPle, hPdvd, hsal, hsP⟩ := norm_facts hLa
    rcases hM : Mmap.map (Layout.pad_to_align l1).size os with ⟨o1, evs1, osA⟩
    rw [hM] at h
    rcases map_out hM with ⟨e, ho1, hev1⟩ | ⟨ho1, hev1⟩ | ⟨a, ha0, ho1, hev1⟩
    · subst ho1; subst hev1
      simp only [andThen, Prod.mk.injEq] at h
      obtain ⟨rfl, rfl, rfl⟩ := h
      exact ⟨fun hc => Out.noConfusion hc, fun m hc => Out.noConfusion hc⟩
    · subst ho1; subst hev1
      simp only [andThen, Prod.mk.injEq] at h
      obtain ⟨rfl, rfl, rfl⟩ := h
      exact absurd rfl (hm 0 (Layout.pad_to_align l1).size (by simp)).2
    · subst ho1; subst hev1
      simp only [andThen] at h
      by_cases hal : a % (Layout.pad_to_align l1).align = 0
      · rw [if_pos hal] at h
        simp only [Prod.mk.injEq] at h
        obtain ⟨rfl, rfl, rfl⟩ := h
        refine ⟨fun hc => Out.noConfusion hc, ?_⟩
        intro m hc
        cases hc
        exact ⟨l1, rfl, rfl, hal⟩
      · rw [if_neg hal] at h
        rcases hU : Mmap.unmap P a (Layout.pad_to_align l1).size osA with ⟨oU, evsU, osB⟩
        rw [hU] at h
        rcases unmap_out hU with ⟨hoU, hevU, hu1, hu2⟩ | ⟨e, hoU, hevU⟩ | ⟨hoU, hevU, hosU, hnu⟩
        · subst hoU; subst hevU
          simp only [andThen] at h
          rw [alloc_slow_red P (Layout.pad_to_align l1) osB hPle (normalized_pad_le hLa)] at h
          rcases hM2 : Mmap.map ((Layout.pad_to_align l1).size +
              ((Layout.pad_to_align l1).align - P)) osB with ⟨o2, evs2, osC⟩
          rw [hM2] at h
          rcases map_out hM2 with ⟨e, ho2, hev2⟩ | ⟨ho2, hev2⟩ | ⟨a2, ha20, ho2, hev2⟩
          · subst ho2; subst hev2
            simp only [andThen, Prod.mk.injEq] at h
            obtain ⟨rfl, rfl, rfl⟩ := h
            exact ⟨fun hc => Out.noConfusion hc, fun m hc => Out.noConfusion hc⟩
          · subst ho2; subst hev2
            simp only [andThen, Prod.mk.injEq] at h
            obtain ⟨rfl, rfl, rfl⟩ := h
            exact absurd rfl (hm 0 ((Layout.pad_to_align l1).size +
              ((Layout.pad_to_align l1).align - P)) (by simp)).2
          · subst ho2; subst hev2
            simp only [andThen] at h
            rcases trim_run P a2 ((Layout.pad_to_align l1).size +
                ((Layout.pad_to_align l1).align - P)) (Layout.pad_to_align l1) osC with
              ⟨hnle, hteq⟩ | ⟨hle2, os3, hteq⟩ |
              ⟨hle2, x2, y2, e2, os3, pre, hpre, hteq⟩ | ⟨hle2, hbad, os3, pre, hpre, hteq⟩
            · rw [hteq] at h
              simp only [andThen, Prod.mk.injEq] at h
              obtain ⟨rfl, rfl, rfl⟩ := h
              exact ⟨fun hc => Out.noConfusion hc, fun m hc => Out.noConfusion hc⟩
            · rw [hteq] at h
              simp only [andThen, Prod.mk.injEq] at h
              obtain ⟨rfl, rfl, rfl⟩ := h
              refine ⟨fun hc => Out.noConfusion hc, ?_⟩
              intro m hc
              cases hc
              exact ⟨l1, rfl, rfl, add_alignOffset_mod a2 _ hApos⟩
            · rw [hteq] at h
              simp only [andThen, Prod.mk.injEq] at h
              obtain ⟨rfl, rfl, rfl⟩ := h
              exact ⟨fun hc => Out.noConfusion hc, fun m hc => Out.noConfusion hc⟩
            · rw [hteq] at h
              simp only [andThen, Prod.mk.injEq] at h
              obtain ⟨rfl, rfl, rfl⟩ := h
              have ha2P : a2 % P = 0 := (hm a2 ((Layout.pad_to_align l1).size +
                ((Layout.pad_to_align l1).align - P)) (by simp)).1
              have hostP : alignOffset a2 (Layout.pad_to_align l1).align % P = 0 :=
                alignOffset_mod_eq_zero hPpos hPdvd ha2P
              rcases hbad with hb | hb
              · exact absurd ⟨ha2P, hostP⟩ hb
              · have hdaddr : P ∣ a2 + alignOffset a2 (Layout.pad_to_align l1).align +
                    (Layout.pad_to_align l1).size :=
                  dvd_add (dvd_add (Nat.dvd_of_mod_eq_zero ha2P)
                    (Nat.dvd_of_mod_eq_zero hostP)) (Nat.dvd_of_mod_eq_zero hsP)
                have hdn : P ∣ (Layout.pad_to_align l1).size +
                    ((Layout.pad_to_align l1).align - P) :=
                  dvd_add (Nat.dvd_of_mod_eq_zero hsP) (Nat.dvd_sub' hPdvd dvd_rfl)
                have hdtend : P ∣ (Layout.pad_to_align l1).size +
                    ((Layout.pad_to_align l1).align - P) -
                    alignOffset a2 (Layout.pad_to_align l1).align -
                    (Layout.pad_to_align l1).size :=
                  Nat.dvd_sub' (Nat.dvd_sub' hdn (Nat.dvd_of_mod_eq_zero hostP))
                    (Nat.dvd_of_mod_eq_zero hsP)
                exact absurd ⟨mod_eq_zero_of_dvd hdaddr, mod_eq_zero_of_dvd hdtend⟩ hb
        · subst hoU; subst hevU
          simp only [andThen, Prod.mk.injEq] at h
          obtain ⟨rfl, rfl, rfl⟩ := h
          exact ⟨fun hc => Out.noConfusion hc, fun m hc => Out.noConfusion hc⟩
        · subst hoU; subst hevU
          simp only [andThen, Prod.mk.injEq] at h
          obtain ⟨rfl, rfl, rfl⟩ := h
          have haP := (hm a (Layout.pad_to_align l1).size (by simp)).1
          exact absurd ⟨haP, hsP⟩ hnu

theorem runEvs_nil (b : Nat) (st : Bool) : runEvs b st [] = st := rfl

theorem runEvs_err_map (b : Nat) (st : Bool) (s : Nat) (e : OsErr) (rest : List Ev) :
    runEvs b st (Ev.map s (Except.error e) :: rest) = runEvs b st rest := rfl

theorem runEvs_cancel (b p s : Nat) (rest : List Ev)
    (hrest : runEvs b false rest = false) :
    runEvs b false (Ev.map s (Except.ok p) :: Ev.unmap p s (Except.ok ()) :: rest) =
      false := by
  unfold runEvs at hrest ⊢
  by_cases hc : covers p s b = true
  · simp [List.foldl, evStep, hc]
    exact hrest
  · simp [List.foldl, evStep, hc]
    exact hrest

theorem trim_no_map (P al n : Nat) (layout : Layout) (os : OS) :
    ∀ len r, Ev.map len r ∉ (Mmap.trim P al n layout os).2.1 := by
  rcases trim_run P al n layout os with ⟨_, hteq⟩ | ⟨_, os3, hteq⟩ |
    ⟨_, x, y, e, os3, pre, hpre, hteq⟩ | ⟨_, _, os3, pre, hpre, hteq⟩
  · intro len r; rw [hteq]; simp
  · intro len r
    rw [hteq]
    by_cases h1 : 0 < alignOffset al layout.align <;>
      by_cases h2 : 0 < n - alignOffset al layout.align - layout.size <;>
      simp [h1, h2]
  · intro len r
    rw [hteq]
    rcases hpre with rfl | rfl <;> simp
  · intro len r
    rw [hteq]
    rcases hpre with rfl | rfl <;> simp

theorem alloc_slow_maps {P : Nat} {layout : Layout} {os : OS}
    (hPA : P ≤ layout.align) (hn : layout.size + (layout.align - P) ≤ USIZE_MAX) :
    ∀ len r, Ev.map len r ∈ (Mmap.alloc_slow P layout os).2.1 →
      len = layout.size + (layout.align - P) := by
  rw [alloc_slow_red P layout os hPA hn]
  rcases hM : Mmap.map (layout.size + (layout.align - P)) os with ⟨o, evs1, osA⟩
  rcases map_out hM with ⟨e, ho, hev⟩ | ⟨ho, hev⟩ | ⟨a, ha, ho, hev⟩
  · subst ho; subst hev
    intro len r hmem
    simp only [andThen] at hmem
    simp at hmem
    exact hmem.1
  · subst ho; subst hev
    intro len r hmem
    simp only [andThen] at hmem
    simp at hmem
    exact hmem.1
  · subst ho; subst hev
    rcases hT : Mmap.trim P a (layout.size + (layout.align - P)) layout osA
      with ⟨oT, evsT, osT⟩
    have hTm : ∀ l2 r2, Ev.map l2 r2 ∉ evsT := by
      intro l2 r2
      have h3 := trim_no_map P a (layout.size + (layout.align - P)) layout osA l2 r2
      rw [hT] at h3
      exact h3
    intro len r hmem
    simp only [andThen] at hmem
    rw [hT] at hmem
    rcases oT with vT | eT | _
    · simp at hmem
      rcases hmem with ⟨h1, h2⟩ | hmem
      · exact h1
      · exact absurd hmem (hTm len r)
    · simp at hmem
      rcases hmem with ⟨h1, h2⟩ | hmem
      · exact h1
      · exact absurd hmem (hTm len r)
    · simp at hmem
      rcases hmem with ⟨h1, h2⟩ | hmem
      · exact h1
      · exact absurd hmem (hTm len r)

/-- C1: for every valid Shape (power-of-two alignment), and any OS behaviour
satisfying the mmap contract (successful maps return page-aligned, nonzero
addresses), Mmap::alloc either fails with one of the MmapErr failure kinds
(never a panic) or returns a block whose pointer is aligned to the requested
alignment. -/
theorem alloc_ok_aligned {P : Nat} {layout : Layout} {os : OS} {res : Out Mem}
    {evs : List Ev} {os2 : OS}
    (hA : isPow2 layout.align = true)
    (h : Mmap.alloc P layout os = (res, evs, os2))
    (hm : ∀ p len, Ev.map len (Except.ok p) ∈ evs → p % P = 0 ∧ p ≠ 0) :
    res ≠ Out.fault ∧ ∀ m, res = Out.ok m → m.ptr % layout.align = 0 := by
  obtain ⟨hnf, hok⟩ := alloc_run h hm
  refine ⟨hnf, ?_⟩
  intro m hr
  obtain ⟨l1, hLa, hml, hmp⟩ := hok m hr
  obtain ⟨hPp, hAp, hsz, hmax, hbb⟩ := align_to_some hLa
  have hdvd : layout.align ∣ l1.align :=
    pow2_dvd hA hAp (by rw [hmax]; exact le_max_left _ _)
  have hptr : m.ptr % l1.align = 0 := by
    rw [hml] at hmp
    exact hmp
  exact mod_eq_zero_of_dvd (dvd_trans hdvd (Nat.dvd_of_mod_eq_zero hptr))

/-- Witness for C1 at page size 4096 and Shape 4096 bytes, 4096 alignment. -/
theorem alloc_ok_aligned_witness :
    (Out.ok (⟨4096, ⟨4096, 4096⟩⟩ : Mem) ≠ Out.fault) ∧
    (∀ m, Out.ok (⟨4096, ⟨4096, 4096⟩⟩ : Mem) = Out.ok m → m.ptr % 4096 = 0) :=
  @alloc_ok_aligned 4096 ⟨4096, 4096⟩ ⟨[Except.ok 4096], []⟩
    (Out.ok ⟨4096, ⟨4096, 4096⟩⟩) [Ev.map 4096 (Except.ok 4096)] ⟨[], []⟩
    (by decide) rfl
    (by intro p len hmem; simp at hmem; omega)

/-- C3: when Mmap::trim succeeds it unmaps exactly the leading slack range
and the trailing slack range; the two released ranges total alloc_size minus
layout.size bytes, tile the original region together with the retained
aligned block, and do not overlap it. -/
theorem trim_slack_exact {P al n : Nat} {layout : Layout} {os : OS} {ptr : Nat}
    {evs : List Ev} {os2 : OS}
    (h : Mmap.trim P al n layout os = (Out.ok ptr, evs, os2)) :
    alignOffset al layout.align + layout.size ≤ n ∧
    ptr = al + alignOffset al layout.align ∧
    evs = (if 0 < alignOffset al layout.align then
        [Ev.unmap al (alignOffset al layout.align) (Except.ok ())] else []) ++
      (if 0 < n - alignOffset al layout.align - layout.size then
        [Ev.unmap (al + alignOffset al layout.align + layout.size)
          (n - alignOffset al layout.align - layout.size) (Except.ok ())] else []) ∧
    alignOffset al layout.align + (n - alignOffset al layout.align - layout.size) =
      n - layout.size ∧
    al + alignOffset al layout.align + layout.size +
      (n - alignOffset al layout.align - layout.size) = al + n := by
  rcases trim_run P al n layout os with ⟨hnle, hteq⟩ | ⟨hle, os3, hteq⟩ |
    ⟨hle, x, y, e, os3, pre, hpre, hteq⟩ | ⟨hle, hbad, os3, pre, hpre, hteq⟩
  · rw [h] at hteq
    simp at hteq
  · rw [h] at hteq
    simp only [Prod.mk.injEq, Out.ok.injEq] at hteq
    obtain ⟨hp, he, ho⟩ := hteq
    exact ⟨hle, hp, he, by omega, by omega⟩
  · rw [h] at hteq
    simp at hteq
  · rw [h] at hteq
    simp at hteq

/-- Witness for C3: page size 4096, region of 16384 bytes at 4096, Shape
8192 bytes aligned 8192: leading slack 4096, trailing slack 4096. -/
theorem trim_slack_exact_witness :
    alignOffset 4096 (8192 : Nat) + 8192 ≤ 16384 ∧
    (8192 : Nat) = 4096 + alignOffset 4096 8192 ∧
    [Ev.unmap 4096 4096 (Except.ok ()), Ev.unmap 16384 4096 (Except.ok ())] =
      (if 0 < alignOffset 4096 (8192 : Nat) then
        [Ev.unmap 4096 (alignOffset 4096 8192) (Except.ok ())] else []) ++
      (if 0 < 16384 - alignOffset 4096 (8192 : Nat) - 8192 then
        [Ev.unmap (4096 + alignOffset 4096 8192 + 8192)
          (16384 - alignOffset 4096 8192 - 8192) (Except.ok ())] else []) ∧
    alignOffset 4096 (8192 : Nat) + (16384 - alignOffset 4096 8192 - 8192) =
      16384 - 8192 ∧
    4096 + alignOffset 4096 (8192 : Nat) + 8192 +
      (16384 - alignOffset 4096 8192 - 8192) = 4096 + 16384 :=
  @trim_slack_exact 4096 4096 16384 ⟨8192, 8192⟩ ⟨[], [Except.ok (), Except.ok ()]⟩
    8192 [Ev.unmap 4096 4096 (Except.ok ()), Ev.unmap 16384 4096 (Except.ok ())]
    ⟨[], []⟩ rfl

/-- C4: under the conditions alloc_slow establishes (page-aligned region
start, padded size alloc_size = layout.size + (layout.align - pagesize),
power-of-two alignments with pagesize ≤ align), the checked subtractions in
trim cannot underflow: the NoAlign error branch is unreachable. -/
theorem trim_noalign_unreachable {P al n : Nat} {layout : Layout} {os : OS}
    (hP : isPow2 P = true) (hA : isPow2 layout.align = true)
    (hPA : P ≤ layout.align) (hal : al % P = 0)
    (hn : n = layout.size + (layout.align - P)) :
    (Mmap.trim P al n layout os).1 ≠ Out.err MmapErr.NoAlign := by
  have hPpos := isPow2_pos hP
  have hdvd := pow2_dvd hP hA hPA
  have host : alignOffset al layout.align ≤ layout.align - P :=
    alignOffset_le hPpos hdvd hPA hal
  have hle : alignOffset al layout.align + layout.size ≤ n := by omega
  rcases trim_run P al n layout os with ⟨hnle, hteq⟩ | ⟨_, os3, hteq⟩ |
    ⟨_, x, y, e, os3, pre, hpre, hteq⟩ | ⟨_, _, os3, pre, hpre, hteq⟩
  · exact absurd hle hnle
  · rw [hteq]
    simp
  · rw [hteq]
    simp
  · rw [hteq]
    simp

/-- Witness for C4: page size 4096, region start 4096, Shape 8192 aligned
8192, alloc_size 12288. -/
theorem trim_noalign_unreachable_witness :
    (Mmap.trim 4096 4096 12288 ⟨8192, 8192⟩ ⟨[], []⟩).1 ≠
      Out.err MmapErr.NoAlign :=
  trim_noalign_unreachable (by decide) (by decide) (by decide) (by decide)
    (by decide)

/-- C6: whenever the padded-size computation layout.size + (layout.align -
pagesize) overflows usize, alloc_slow returns the distinct Overflow failure
(no panic) and performs no OS mapping call at all (empty trace). -/
theorem alloc_slow_overflow {P : Nat} {layout : Layout} {os : OS}
    (hPA : P ≤ layout.align)
    (hov : USIZE_MAX < layout.size + (layout.align - P)) :
    Mmap.alloc_slow P layout os = (Out.err MmapErr.Overflow, [], os) := by
  unfold Mmap.alloc_slow
  rw [show checkedSub layout.align P = some (layout.align - P) from by
    unfold checkedSub; rw [if_pos hPA]]
  dsimp only
  rw [show checkedAdd layout.size (layout.align - P) = none from by
    unfold checkedAdd; rw [if_neg (by omega)]]

/-- Witness for C6: size usize::MAX with alignment 2^63 at page size 4096
overflows the padded size; the result is Overflow with an empty trace. -/
theorem alloc_slow_overflow_witness :
    Mmap.alloc_slow 4096 ⟨USIZE_MAX, 2 ^ 63⟩ ⟨[], []⟩ =
      (Out.err MmapErr.Overflow, [], ⟨[], []⟩) :=
  @alloc_slow_overflow 4096 ⟨USIZE_MAX, 2 ^ 63⟩ ⟨[], []⟩ (by decide) (by decide)

/-- C7: alloc normalizes every request (alignment raised to at least the
page size, size rounded up to a multiple of that alignment); every block a
successful alloc returns therefore has a page-aligned pointer and a size
that is a multiple of the page size, so the asserts inside unmap hold when
free releases the block: free can never hit the assert (no panic). -/
theorem alloc_normalized_free_safe {P : Nat} {layout : Layout} {os : OS}
    {m : Mem} {evs : List Ev} {os2 : OS}
    (h : Mmap.alloc P layout os = (Out.ok m, evs, os2))
    (hm : ∀ p len, Ev.map len (Except.ok p) ∈ evs → p % P = 0 ∧ p ≠ 0) :
    m.layout.align = max layout.align P ∧
    m.layout.size = layout.size + alignOffset layout.size (max layout.align P) ∧
    m.ptr % P = 0 ∧ m.layout.size % P = 0 ∧
    ∀ os3, (Mmap.free P m os3).1 ≠ Out.fault := by
  obtain ⟨hnf, hok⟩ := alloc_run h hm
  obtain ⟨l1, hLa, hml, hmp⟩ := hok m rfl
  obtain ⟨hPpos, hApos, hPle, hPdvd, hsal, hsP⟩ := norm_facts hLa
  obtain ⟨hPp, hAp, hsz, hmax, hbb⟩ := align_to_some hLa
  have hal : m.layout.align = l1.align := by rw [hml]; rfl
  have hsize : m.layout.size = l1.size + alignOffset l1.size l1.align := by
    rw [hml]; rfl
  have hptrP : m.ptr % P = 0 := by
    have hd : P ∣ m.layout.align := by rw [hal]; exact hPdvd
    exact mod_eq_zero_of_dvd (dvd_trans hd (Nat.dvd_of_mod_eq_zero hmp))
  have hszP : m.layout.size % P = 0 := by rw [hml]; exact hsP
  refine ⟨by rw [hal, hmax], by rw [hsize, hsz, hmax], hptrP, hszP, ?_⟩
  intro os3
  unfold Mmap.free Mmap.unmap
  rw [if_pos ⟨hptrP, hszP⟩]
  rcases os3 with ⟨ms3, us3⟩
  rcases us3 with _ | ⟨r, rs⟩
  · exact fun hc => Out.noConfusion hc
  · rcases r with e | u
    · exact fun hc => Out.noConfusion hc
    · exact fun hc => Out.noConfusion hc

/-- Witness for C7 at page size 4096 and Shape 4096 bytes, 4096 alignment. -/
theorem alloc_normalized_free_safe_witness :
    (⟨4096, ⟨4096, 4096⟩⟩ : Mem).layout.align = max 4096 4096 ∧
    (⟨4096, ⟨4096, 4096⟩⟩ : Mem).layout.size =
      4096 + alignOffset 4096 (max 4096 4096) ∧
    (⟨4096, ⟨4096, 4096⟩⟩ : Mem).ptr % 4096 = 0 ∧
    (⟨4096, ⟨4096, 4096⟩⟩ : Mem).layout.size % 4096 = 0 ∧
    ∀ os3, (Mmap.free 4096 ⟨4096, ⟨4096, 4096⟩⟩ os3).1 ≠ Out.fault :=
  @alloc_normalized_free_safe 4096 ⟨4096, 4096⟩ ⟨[Except.ok 4096], []⟩
    ⟨4096, ⟨4096, 4096⟩⟩ [Ev.map 4096 (Except.ok 4096)] ⟨[], []⟩
    rfl (by intro p len hmem; simp at hmem; omega)

/-- C2: when the fast-path mapping comes back insufficiently aligned (and is
page-aligned and nonzero per the OS contract, with the first unmap accepted
by the OS), alloc's trace begins with the fast-path map, immediately
followed by an unmap of that entire first mapping — before any further map
call — and every later map call in the trace requests exactly
normalized.size + (normalized.align - pagesize) bytes. -/
theorem alloc_slowpath_unmap_first {P : Nat} {layout l1 : Layout} {os : OS}
    {p : Nat} {mrest : List (Except OsErr Nat)} {urest : List (Except OsErr Unit)}
    (hLa : Layout.align_to layout P = some l1)
    (hos : os.maps = Except.ok p :: mrest)
    (hp0 : ¬ p = 0)
    (hmis : ¬ p % (Layout.pad_to_align l1).align = 0)
    (hpa : p % P = 0)
    (hou : os.unmaps = Except.ok () :: urest) :
    ∃ tail,
      (Mmap.alloc P layout os).2.1 =
        Ev.map (Layout.pad_to_align l1).size (Except.ok p) ::
        Ev.unmap p (Layout.pad_to_align l1).size (Except.ok ()) :: tail ∧
      ∀ len r, Ev.map len r ∈ tail →
        len = (Layout.pad_to_align l1).size + ((Layout.pad_to_align l1).align - P) := by
  obtain ⟨hPpos, hApos, hPle, hPdvd, hsal, hsP⟩ := norm_facts hLa
  rw [alloc_some os hLa]
  have hM : Mmap.map (Layout.pad_to_align l1).size os =
      (Out.ok p, [Ev.map (Layout.pad_to_align l1).size (Except.ok p)],
        ⟨mrest, os.unmaps⟩) := by
    unfold Mmap.map
    rw [hos]
    dsimp only
    rw [if_neg hp0]
  rw [hM]
  simp only [andThen]
  rw [if_neg hmis]
  have hU : Mmap.unmap P p (Layout.pad_to_align l1).size ⟨mrest, os.unmaps⟩ =
      (Out.ok (), [Ev.unmap p (Layout.pad_to_align l1).size (Except.ok ())],
        ⟨mrest, urest⟩) := by
    unfold Mmap.unmap
    rw [if_pos ⟨hpa, hsP⟩]
    dsimp only
    rw [hou]
  rw [hU]
  simp only [andThen]
  refine ⟨(Mmap.alloc_slow P (Layout.pad_to_align l1) ⟨mrest, urest⟩).2.1, ?_, ?_⟩
  · simp
  · exact alloc_slow_maps hPle (normalized_pad_le hLa)

/-- Witness for C2: page size 4096, Shape 4096 bytes aligned 8192; the OS
returns 4096 (misaligned for 8192) and then accepts the unmap. -/
theorem alloc_slowpath_unmap_first_witness :
    ∃ tail,
      (Mmap.alloc 4096 ⟨4096, 8192⟩
        ⟨[Except.ok 4096, Except.ok 4096], [Except.ok (), Except.ok ()]⟩).2.1 =
        Ev.map (Layout.pad_to_align ⟨4096, 8192⟩).size (Except.ok 4096) ::
        Ev.unmap 4096 (Layout.pad_to_align ⟨4096, 8192⟩).size (Except.ok ()) :: tail ∧
      ∀ len r, Ev.map len r ∈ tail →
        len = (Layout.pad_to_align ⟨4096, 8192⟩).size +
          ((Layout.pad_to_align ⟨4096, 8192⟩).align - 4096) :=
  @alloc_slowpath_unmap_first 4096 ⟨4096, 8192⟩ ⟨4096, 8192⟩
    ⟨[Except.ok 4096, Except.ok 4096], [Except.ok (), Except.ok ()]⟩
    4096 [Except.ok 4096] [Except.ok ()]
    (by decide) rfl (by decide) (by decide) (by decide) rfl

/-- C5 counterexample: page size 4096, Shape 4096 bytes aligned 8192; the OS
returns the page-aligned but misaligned address 4096 and then fails the
unmap with errno 22.  alloc returns the Os failure, yet byte 4096 of the
intermediate fast-path mapping is still mapped when the error is returned:
the claimed unconditional cleanup does not hold. -/
theorem alloc_err_leak_cex :
    (Mmap.alloc 4096 ⟨4096, 8192⟩ ⟨[Except.ok 4096], [Except.error 22]⟩).1 =
      Out.err (MmapErr.Os 22) ∧
    isMappedAfter
      (Mmap.alloc 4096 ⟨4096, 8192⟩ ⟨[Except.ok 4096], [Except.error 22]⟩).2.1
      4096 = true :=
  ⟨rfl, rfl⟩

/-- C5 (amended): whenever alloc returns a failure, provided the OS kept its
contract for map (page-aligned results) and no unmap call itself failed,
every byte of every intermediate OS mapping alloc made has been unmapped
before the error is returned. -/
theorem alloc_err_cleanup {P : Nat} {layout : Layout} {os : OS} {e : MmapErr}
    {evs : List Ev} {os2 : OS}
    (h : Mmap.alloc P layout os = (Out.err e, evs, os2))
    (hm : ∀ p len, Ev.map len (Except.ok p) ∈ evs → p % P = 0)
    (hu : ∀ a l er, Ev.unmap a l (Except.error er) ∉ evs)
    (b : Nat) : isMappedAfter evs b = false := by
  rcases hLa : Layout.align_to layout P with _ | l1
  · rw [alloc_noneL os hLa] at h
    simp only [Prod.mk.injEq] at h
    obtain ⟨he, rfl, rfl⟩ := h
    rfl
  · rw [alloc_some os hLa] at h
    obtain ⟨hPpos, hApos, hPle, hPdvd, hsal, hsP⟩ := norm_facts hLa
    rcases hM : Mmap.map (Layout.pad_to_align l1).size os with ⟨o1, evs1, osA⟩
    rw [hM] at h
    rcases map_out hM with ⟨e1, ho1, hev1⟩ | ⟨ho1, hev1⟩ | ⟨a, ha0, ho1, hev1⟩
    · subst ho1; subst hev1
      simp only [andThen, Prod.mk.injEq] at h
      obtain ⟨he, rfl, rfl⟩ := h
      rfl
    · subst ho1; subst hev1
      simp only [andThen, Prod.mk.injEq] at h
      obtain ⟨he, rfl, rfl⟩ := h
      exact Out.noConfusion he
    · subst ho1; subst hev1
      simp only [andThen] at h
      by_cases hal : a % (Layout.pad_to_align l1).align = 0
      · rw [if_pos hal] at h
        simp only [Prod.mk.injEq] at h
        obtain ⟨he, rfl, rfl⟩ := h
        exact Out.noConfusion he
      · rw [if_neg hal] at h
        rcases hU : Mmap.unmap P a (Layout.pad_to_align l1).size osA with ⟨oU, evsU, osB⟩
        rw [hU] at h
        rcases unmap_out hU with ⟨hoU, hevU, hu1, hu2⟩ | ⟨e2, hoU, hevU⟩ |
          ⟨hoU, hevU, hosU, hnu⟩
        · subst hoU; subst hevU
          simp only [andThen] at h
          rw [alloc_slow_red P (Layout.pad_to_align l1) osB hPle
            (normalized_pad_le hLa)] at h
          rcases hM2 : Mmap.map ((Layout.pad_to_align l1).size +
              ((Layout.pad_to_align l1).align - P)) osB with ⟨o2, evs2, osC⟩
          rw [hM2] at h
          rcases map_out hM2 with ⟨e2, ho2, hev2⟩ | ⟨ho2, hev2⟩ | ⟨a2, ha20, ho2, hev2⟩
          · subst ho2; subst hev2
            simp only [andThen, Prod.mk.injEq] at h
            obtain ⟨he, rfl, rfl⟩ := h
            unfold isMappedAfter
            simp only [List.cons_append, List.nil_append]
            exact runEvs_cancel b a (Layout.pad_to_align l1).size _ rfl
          · subst ho2; subst hev2
            simp only [andThen, Prod.mk.injEq] at h
            obtain ⟨he, rfl, rfl⟩ := h
            exact Out.noConfusion he
          · subst ho2; subst hev2
            simp only [andThen] at h
            rcases trim_run P a2 ((Layout.pad_to_align l1).size +
                ((Layout.pad_to_align l1).align - P)) (Layout.pad_to_align l1) osC with
              ⟨hnle, hteq⟩ | ⟨hle2, os3, hteq⟩ |
              ⟨hle2, x2, y2, e2, os3, pre, hpre, hteq⟩ | ⟨hle2, hbad, os3, pre, hpre, hteq⟩
            · rw [hteq] at h
              simp only [andThen, Prod.mk.injEq] at h
              obtain ⟨he, rfl, rfl⟩ := h
              have ha2P : a2 % P = 0 := hm a2 ((Layout.pad_to_align l1).size +
                ((Layout.pad_to_align l1).align - P)) (by simp)
              have host : alignOffset a2 (Layout.pad_to_align l1).align ≤
                  (Layout.pad_to_align l1).align - P :=
                alignOffset_le hPpos hPdvd hPle ha2P
              exact absurd (by omega :
                alignOffset a2 (Layout.pad_to_align l1).align +
                  (Layout.pad_to_align l1).size ≤
                (Layout.pad_to_align l1).size +
                  ((Layout.pad_to_align l1).align - P)) hnle
            · rw [hteq] at h
              simp only [andThen, Prod.mk.injEq] at h
              obtain ⟨he, rfl, rfl⟩ := h
              exact Out.noConfusion he
            · rw [hteq] at h
              simp only [andThen, Prod.mk.injEq] at h
              obtain ⟨he, rfl, rfl⟩ := h
              exact absurd (by simp) (hu x2 y2 e2)
            · rw [hteq] at h
              simp only [andThen, Prod.mk.injEq] at h
              obtain ⟨he, rfl, rfl⟩ := h
              exact Out.noConfusion he
        · subst hoU; subst hevU
          simp only [andThen, Prod.mk.injEq] at h
          obtain ⟨he, rfl, rfl⟩ := h
          exact absurd (by simp) (hu a (Layout.pad_to_align l1).size e2)
        · subst hoU; subst hevU
          simp only [andThen, Prod.mk.injEq] at h
          obtain ⟨he, rfl, rfl⟩ := h
          exact Out.noConfusion he

/-- Witness for the amended C5: a failed first map (errno 12) leaves nothing
mapped. -/
theorem alloc_err_cleanup_witness :
    isMappedAfter [Ev.map 4096 (Except.error 12)] 0 = false :=
  @alloc_err_cleanup 4096 ⟨4096, 4096⟩ ⟨[Except.error 12], []⟩ (MmapErr.Os 12)
    [Ev.map 4096 (Except.error 12)] ⟨[], []⟩ rfl
    (by intro p len hmem; simp at hmem)
    (by intro a l er hmem; simp at hmem) 0

/-- C8: for a zero-size layout the decorator's alloc returns Ok with a Tag
whose pointer is the dangling placeholder (nonzero and aligned to the
requested alignment), for every wrapped allocator T and state s, leaving the
state untouched — so the wrapped alloc is never invoked; and free of that
zero-size Tag (free modelled from the spec, since the source line tests an
unbound name) returns the state unchanged — the wrapped free is never
invoked. -/
theorem zeroheap_zero_alloc {σ : Type} (T : Alloc σ) (layout : Layout) (s : σ)
    (h0 : layout.size = 0) (hA : isPow2 layout.align = true) :
    ZeroHeap.alloc T layout s = (Except.ok ⟨Layout.dangling layout, layout⟩, s) ∧
    Layout.dangling layout % layout.align = 0 ∧
    Layout.dangling layout ≠ 0 ∧
    ZeroHeap.free T ⟨Layout.dangling layout, layout⟩ s = s := by
  have hpos := isPow2_pos hA
  refine ⟨?_, ?_, ?_, ?_⟩
  · unfold ZeroHeap.alloc
    rw [if_pos h0]
  · unfold Layout.dangling
    exact Nat.mod_self _
  · unfold Layout.dangling
    omega
  · unfold ZeroHeap.free
    rw [if_neg (by simp [h0])]

/-- Witness for C8 with the instrumented counting allocator: the call count
stays at zero through both the zero-size alloc and the zero-size free. -/
theorem zeroheap_zero_alloc_witness :
    ZeroHeap.alloc countAlloc ⟨0, 16⟩ 0 = (Except.ok ⟨16, ⟨0, 16⟩⟩, 0) ∧
    (16 : Nat) % 16 = 0 ∧
    (16 : Nat) ≠ 0 ∧
    ZeroHeap.free countAlloc ⟨16, ⟨0, 16⟩⟩ 0 = 0 :=
  zeroheap_zero_alloc countAlloc ⟨0, 16⟩ 0 rfl (by decide)

/-- C9: for a layout with nonzero size the decorator's alloc delegates to
the wrapped allocator unchanged, and for a Tag whose layout has nonzero size
the decorator's free (modelled from the spec, since the source line tests an
unbound name) delegates to the wrapped free with that same Tag. -/
theorem zeroheap_delegate {σ : Type} (T : Alloc σ) (layout : Layout) (tag : Tag)
    (s : σ) (hsz : ¬ layout.size = 0) (htz : tag.layout.size ≠ 0) :
    ZeroHeap.alloc T layout s = T.alloc layout s ∧
    ZeroHeap.free T tag s = T.free tag s := by
  constructor
  · unfold ZeroHeap.alloc
    rw [if_neg hsz]
  · unfold ZeroHeap.free
    rw [if_pos htz]

/-- Witness for C9 with the instrumented counting allocator: a 4096-byte
request increments the alloc count, and free of a nonzero Tag increments
the free count. -/
theorem zeroheap_delegate_witness :
    ZeroHeap.alloc countAlloc ⟨4096, 4096⟩ 0 = countAlloc.alloc ⟨4096, 4096⟩ 0 ∧
    ZeroHeap.free countAlloc ⟨4096, ⟨4096, 4096⟩⟩ 0 =
      countAlloc.free ⟨4096, ⟨4096, 4096⟩⟩ 0 :=
  zeroheap_delegate countAlloc ⟨4096, 4096⟩ ⟨4096, ⟨4096, 4096⟩⟩ 0
    (by decide) (by decide)

/-- C10 counterexample: a zero-byte Shape passed directly to the page
allocator normalizes to size 0 — the padded request is empty, not
non-empty as claimed — and alloc passes the zero-length request straight to
the OS map call. -/
theorem alloc_zero_cex :
    (Layout.align_to ⟨0, 1⟩ 4096).map Layout.pad_to_align = some ⟨0, 4096⟩ ∧
    (Mmap.alloc 4096 ⟨0, 1⟩ ⟨[Except.error 22], []⟩).2.1 =
      [Ev.map 0 (Except.error 22)] :=
  ⟨rfl, rfl⟩

/-- C10 (amended): for a zero-size layout, normalization still succeeds and
rounds the alignment up to max(align, pagesize), but the padded size is 0
(a multiple of the page size, yet empty, not non-empty); the page allocator
does not special-case zero-size itself: its first OS call is a map request
of exactly 0 bytes. -/
theorem alloc_zero_normalized {P : Nat} {l0 : Layout} (os : OS)
    (hP : isPow2 P = true) (hA : isPow2 l0.align = true) (h0 : l0.size = 0) :
    Layout.align_to l0 P = some ⟨0, max l0.align P⟩ ∧
    Layout.pad_to_align ⟨0, max l0.align P⟩ = ⟨0, max l0.align P⟩ ∧
    (0 : Nat) % P = 0 ∧
    ∃ r rest, (Mmap.alloc P l0 os).2.1 = Ev.map 0 r :: rest := by
  have hPpos := isPow2_pos hP
  have hmx : isPow2 (max l0.align P) = true := isPow2_max hA hP
  have hmxpos : 0 < max l0.align P := isPow2_pos hmx
  have hofs0 : alignOffset 0 (max l0.align P) = 0 := by
    unfold alignOffset
    rw [Nat.zero_mod, Nat.sub_zero, Nat.mod_self]
  have hLa : Layout.align_to l0 P = some ⟨0, max l0.align P⟩ := by
    unfold Layout.align_to Layout.from_size_align
    rw [if_pos hP, h0, if_pos ⟨hmx, Nat.zero_le _⟩]
  have hpad : Layout.pad_to_align ⟨0, max l0.align P⟩ = ⟨0, max l0.align P⟩ := by
    unfold Layout.pad_to_align
    rw [show (⟨0, max l0.align P⟩ : Layout).size = 0 from rfl]
    rw [show (⟨0, max l0.align P⟩ : Layout).align = max l0.align P from rfl]
    rw [hofs0]
  refine ⟨hLa, hpad, Nat.zero_mod _, ?_⟩
  rw [alloc_some os hLa]
  rw [hpad]
  rcases hM : Mmap.map (⟨0, max l0.align P⟩ : Layout).size os with ⟨o1, evs1, osA⟩
  rcases map_out hM with ⟨e1, ho1, hev1⟩ | ⟨ho1, hev1⟩ | ⟨a, ha0, ho1, hev1⟩ <;>
    subst ho1 <;> subst hev1 <;> simp only [andThen]
  · exact ⟨Except.error e1, [], rfl⟩
  · exact ⟨Except.ok 0, [], rfl⟩
  · by_cases hal : a % (⟨0, max l0.align P⟩ : Layout).align = 0
    · rw [if_pos hal]
      exact ⟨Except.ok a, [], by simp⟩
    · rw [if_neg hal]
      rcases hU : Mmap.unmap P a (⟨0, max l0.align P⟩ : Layout).size osA
        with ⟨oU, evsU, osB⟩
      rcases oU with u | e2 | _
      · exact ⟨Except.ok a,
          evsU ++ (Mmap.alloc_slow P (⟨0, max l0.align P⟩ : Layout) osB).2.1,
          by simp⟩
      · exact ⟨Except.ok a, evsU, by simp⟩
      · exact ⟨Except.ok a, evsU, by simp⟩

/-- Witness for the amended C10: Shape 0 bytes aligned 1, page size 4096. -/
theorem alloc_zero_normalized_witness :
    Layout.align_to ⟨0, 1⟩ 4096 = some ⟨0, max 1 4096⟩ ∧
    Layout.pad_to_align ⟨0, max 1 4096⟩ = ⟨0, max 1 4096⟩ ∧
    (0 : Nat) % 4096 = 0 ∧
    ∃ r rest, (Mmap.alloc 4096 ⟨0, 1⟩ ⟨[Except.error 22], []⟩).2.1 =
      Ev.map 0 r :: rest :=
  @alloc_zero_normalized 4096 ⟨0, 1⟩ ⟨[Except.error 22], []⟩
    (by decide) (by decide) rfl
